import Mathlib

/-!
# Late-interaction retrieval engine: verification development

The repository ships a usage example (`examples/late_interaction/colbert_example.py`)
of a late-interaction (ColBERT-style) retrieval pipeline: documents are indexed as
sets of per-token embedding vectors, optionally compressed by pooling, and queries
are answered by a two-stage search (per-token ANN candidate generation followed by
exact MaxSim reranking).  The pipeline implementation itself (`LateInteractionPipeline`)
is not part of the sources here, so the core data model and operations below are
modelled from the specification and exercised by the example.

Design choices of the embedding:
* token vectors are lists of rationals (`List ℚ`); similarity is the dot product,
  one of the two similarity functions the spec allows;
* the store is an explicit state (`StoreState`): a schema flag, a list of document
  rows and a fresh-identifier counter (the spec only requires identifiers to be
  collision-free under concurrent callers);
* fallible operations return `Except Err _`;
* concurrency in bulk indexing is modelled by an arbitrary completion order,
  a permutation of the input positions, threaded through the state.
-/

namespace LateInteraction

/-- A token embedding vector: a fixed-dimension vector, modelled over ℚ. -/
abbrev Vec := List ℚ

/-- Dot-product similarity between two token vectors. -/
def dot (a b : Vec) : ℚ := (List.zipWith (· * ·) a b).sum

/-- Pointwise sum of two vectors. -/
def vecAdd (a b : Vec) : Vec := List.zipWith (· + ·) a b

/-- Sum of a nonempty list of vectors (empty input gives the empty vector). -/
def vecSum : List Vec → Vec
  | [] => []
  | v :: rest => rest.foldl vecAdd v

/-- Mean of a list of vectors: the representative of a pooled cluster. -/
def vecMean (vs : List Vec) : Vec := (vecSum vs).map (· / (vs.length : ℚ))

/-- Cosine distance between (unit-normalised) token vectors, modelled as
`1 - dot a b`. -/
def cosDist (a b : Vec) : ℚ := 1 - dot a b

/-- Modelled from the spec: the clustering step of document-side pooling
(`LateInteractionPipeline`'s pooling engine is not in the sources).  The spec
fixes the contract (output count `≈ N / factor`, determinism, tie-break by
original position) and leaves the clustering algorithm to the implementer; we
group adjacent vectors into runs of `factor` and take the mean of each run. -/
def poolChunks (factor : Nat) (ts : List Vec) : List Vec :=
  match ts with
  | [] => []
  | t :: rest =>
      vecMean (t :: rest.take (factor - 1)) :: poolChunks factor (rest.drop (factor - 1))
termination_by ts.length
decreasing_by
  simp only [List.length_drop, List.length_cons]
  omega

/-- Modelled from the spec: document-side pooling (`doc_pool_factor`).
Disabled (identity) when the factor is unset; a factor of at most 1 requests no
compression, so the sequence is also returned unchanged. -/
def docPool (factor : Option Nat) (ts : List Vec) : List Vec :=
  match factor with
  | none => ts
  | some f => if f ≤ 1 then ts else poolChunks f ts

/-- Insert a query token vector into the greedy cluster list: it joins the first
cluster whose mean representative is within the cosine-distance threshold,
otherwise it opens a new cluster at the end (ties broken by position). -/
def addToClusters (d : ℚ) (cs : List (List Vec)) (v : Vec) : List (List Vec) :=
  match cs with
  | [] => [[v]]
  | c :: rest =>
      if cosDist (vecMean c) v < d then (v :: c) :: rest
      else c :: addToClusters d rest v

/-- Modelled from the spec: query-side pooling (`query_pool_distance`), a greedy
threshold merge — any query token within the cosine-distance threshold of an
existing cluster is merged into it (representative = mean); disabled when the
distance is 0. -/
def queryPool (d : ℚ) (ts : List Vec) : List Vec :=
  if d = 0 then ts
  else (ts.foldl (addToClusters d) []).map vecMean

/-- Error taxonomy of the pipeline, modelled from the spec. -/
inductive Err where
  | configurationError : Err
  | embeddingError : String → Err
  | storageError : Err
  | shapeMismatch : Err
  | notFound : Err
  | invalidQuery : Err
  | arityMismatch : Err
  | notInitialized : Err
deriving DecidableEq, Repr

/-- Opaque document metadata: a key-value mapping. -/
abbrev Meta := List (String × String)

/-- A stored document row: stable identifier, (pooled) token vectors, metadata,
and the original content string. -/
structure Document where
  docId : Nat
  tokens : List Vec
  metadata : Meta
  content : String
deriving DecidableEq, Repr

/-- The backing storage state: whether `initialize()` has created the schema, the
document rows, and the fresh-identifier counter (the spec only requires document
identities to be fresh and collision-free). -/
structure StoreState where
  schemaReady : Bool
  docs : List Document
  nextId : Nat
deriving DecidableEq, Repr

/-- Immutable per-pipeline configuration, fixed at construction. -/
structure PipelineConfig where
  docPoolFactor : Option Nat
  queryPoolDistance : ℚ
  defaultConcurrencyLimit : Nat
deriving DecidableEq, Repr

/-- Modelled from the spec: `initialize()` creates the backing storage
structures if absent and no-ops if already present. -/
def initStore (s : StoreState) : StoreState :=
  if s.schemaReady then s else { s with schemaReady := true }

/-- Modelled from the spec: `index_document(content, metadata) -> document_id` —
embed the content (EmbeddingError if the adapter errors or returns zero tokens),
apply document-side pooling, generate a fresh identity, persist the row as one
logical write, return the identity.  The embedding adapter is an explicit
function argument; NotInitialized is raised when `initialize` has not run. -/
def index_document (embed : String → Except String (List Vec)) (cfg : PipelineConfig)
    (content : String) (metadata : Meta) (s : StoreState) :
    Except Err (Nat × StoreState) :=
  if s.schemaReady = false then .error .notInitialized
  else
    match embed content with
    | .error e => .error (.embeddingError e)
    | .ok [] => .error (.embeddingError "zero tokens")
    | .ok (t :: ts) =>
        let pooled := docPool cfg.docPoolFactor (t :: ts)
        .ok (s.nextId,
             { s with
                docs := ⟨s.nextId, pooled, metadata, content⟩ :: s.docs,
                nextId := s.nextId + 1 })

/-- Modelled from the spec: `get_document(document_id) -> {content, metadata}`,
failing with NotFound if the identity is unknown. -/
def get_document (s : StoreState) (id : Nat) : Except Err (String × Meta) :=
  match s.docs.find? (fun d => d.docId = id) with
  | some d => .ok (d.content, d.metadata)
  | none => .error .notFound

/-- Store invariant: every stored document identifier is below the fresh
counter, so freshly generated identities never collide with stored rows. -/
def Wf (s : StoreState) : Prop := ∀ d ∈ s.docs, d.docId < s.nextId

/-- Find the outcome recorded for slot `j` in a per-position outcome list. -/
def slotFind (j : Nat) : List (Nat × α) → Option α
  | [] => none
  | (k, v) :: rest => if k = j then some v else slotFind j rest

/-- Modelled from the spec: the concurrent execution of a bulk call's per-item
indexing operations.  Concurrency is modelled by an arbitrary completion order
(a list of input positions): items execute in that order against the shared
store, and each executed position records its own outcome tagged with its
position (`max_concurrency` only bounds in-flight work; it does not affect
results). -/
def bulkExec (embed : String → Except String (List Vec)) (cfg : PipelineConfig)
    (items : List (String × Meta)) (order : List Nat) (s : StoreState) :
    List (Nat × Except Err Nat) × StoreState :=
  match order with
  | [] => ([], s)
  | j :: rest =>
      match items[j]? with
      | none => bulkExec embed cfg items rest s
      | some cm =>
          match index_document embed cfg cm.1 cm.2 s with
          | .ok (id, s1) =>
              ((j, .ok id) :: (bulkExec embed cfg items rest s1).1,
               (bulkExec embed cfg items rest s1).2)
          | .error e =>
              ((j, .error e) :: (bulkExec embed cfg items rest s).1,
               (bulkExec embed cfg items rest s).2)

/-- Modelled from the spec: `bulk_index_documents(contents, metadata_list,
max_concurrency)` — fails with ArityMismatch on a length mismatch, executes the
per-item indexing operations concurrently (here: in the given completion
order), and assembles the per-item outcomes back into input order. -/
def bulk_index_documents (embed : String → Except String (List Vec))
    (cfg : PipelineConfig) (contents : List String) (metadataList : List Meta)
    (maxConcurrency : Nat) (order : List Nat) (s : StoreState) :
    Except Err (List (Except Err Nat) × StoreState) :=
  if contents.length = metadataList.length then
    let r := bulkExec embed cfg (contents.zip metadataList) order s
    .ok ((List.range contents.length).map
      (fun i => (slotFind i r.1).getD (.error .storageError)), r.2)
  else .error .arityMismatch

/-- A single approximate-nearest-neighbour hit: the owning document, the token
position within it, and the similarity to the query token vector. -/
structure AnnHit where
  docId : Nat
  tokenIdx : Nat
  sim : ℚ
deriving DecidableEq, Repr

/-- Serialise a metadata mapping to its JSON-like textual form. -/
def metaSerialize (m : Meta) : String :=
  "\x7b" ++ String.intercalate ","
    (m.map (fun kv => "\"" ++ kv.1 ++ "\":\"" ++ kv.2 ++ "\"")) ++ "\x7d"

/-- Substring test over the character lists of two strings. -/
def strContains (hay pat : String) : Bool :=
  (List.range (hay.toList.length + 1)).any
    (fun i => pat.toList.isPrefixOf (hay.toList.drop i))

/-- Modelled from the spec: the metadata filter condition.  The source usage
passes a predicate of the form `\x7b"metadata": \x7b"$contains": s\x7d\x7d`; we model
the `$contains` payload `s` directly: a document passes when its serialised
metadata contains `s` as a substring (pushed down to candidate generation). -/
def passesFilter (filter : Option String) (d : Document) : Bool :=
  match filter with
  | none => true
  | some s => strContains (metaSerialize d.metadata) s

/-- All stored (pooled) token vectors of the documents passing the filter,
scored with dot-product similarity against one query token vector. -/
def allHits (qv : Vec) (filter : Option String) (docs : List Document) :
    List AnnHit :=
  (docs.filter (fun d => passesFilter filter d)).flatMap (fun d =>
    (List.range d.tokens.length).map
      (fun ti => ⟨d.docId, ti, dot qv (d.tokens.getD ti [])⟩))

/-- Ordering of ANN hits: descending similarity, ties broken by document
identifier then token position for determinism. -/
def hitRel (a b : AnnHit) : Prop :=
  b.sim < a.sim ∨ (a.sim = b.sim ∧
    (a.docId < b.docId ∨ (a.docId = b.docId ∧ a.tokenIdx ≤ b.tokenIdx)))

instance : DecidableRel hitRel := fun a b => by
  unfold hitRel
  exact inferInstance

/-- Modelled from the spec: `ann_query(vector, top_n, filter)` of the vector
store adapter — the `top_n` stored token vectors most similar to the query
vector among the documents passing the filter. -/
def ann_query (qv : Vec) (topN : Nat) (filter : Option String)
    (docs : List Document) : List AnnHit :=
  (List.insertionSort hitRel (allHits qv filter docs)).take topN

/-- The candidate documents: owners of any token returned across the per-token
ANN calls. -/
def candidateIds (hits : List AnnHit) : List Nat :=
  (hits.map AnnHit.docId).dedup

/-- The cheap proxy ranking a candidate before exact scoring: the sum of the
per-token ANN similarities of its returned tokens. -/
def proxyScore (hits : List AnnHit) (id : Nat) : ℚ :=
  ((hits.filter (fun h => h.docId = id)).map AnnHit.sim).sum

/-- Ordering of candidates by descending proxy score, ties by identifier. -/
def candRel (hits : List AnnHit) (a b : Nat) : Prop :=
  proxyScore hits b < proxyScore hits a ∨
    (proxyScore hits a = proxyScore hits b ∧ a ≤ b)

instance (hits : List AnnHit) : DecidableRel (candRel hits) := fun a b => by
  unfold candRel
  exact inferInstance

/-- Modelled from the spec: keep the top `n_maxsim_candidates` candidate
documents under the proxy ranking, bounding the exact scoring stage. -/
def selectCandidates (hits : List AnnHit) (nCand : Nat) : List Nat :=
  (List.insertionSort (candRel hits) (candidateIds hits)).take nCand

/-- A search result: (document_id, score, metadata). -/
structure SearchResult where
  docId : Nat
  score : ℚ
  metadata : Meta
deriving DecidableEq, Repr

/-- Maximum of a list of rationals (0 for the empty list; document token sets
are nonempty by invariant). -/
def qMax : List ℚ → ℚ
  | [] => 0
  | [x] => x
  | x :: y :: rest => max x (qMax (y :: rest))

/-- The MaxSim aggregate: the sum, over each (pooled) query token vector, of
the maximum similarity between that query token and any of the document's
stored (pooled) token vectors. -/
def maxSim (qts dts : List Vec) : ℚ :=
  (qts.map (fun qv => qMax (dts.map (fun dv => dot qv dv)))).sum

/-- Ordering of search results: descending MaxSim score, ties broken by
document identifier. -/
def resRel (a b : SearchResult) : Prop :=
  b.score < a.score ∨ (a.score = b.score ∧ a.docId ≤ b.docId)

instance : DecidableRel resRel := fun a b => by
  unfold resRel
  exact inferInstance

instance : IsTotal SearchResult resRel := ⟨by
  intro a b
  unfold resRel
  rcases lt_trichotomy a.score b.score with h | h | h
  · exact Or.inr (Or.inl h)
  · rcases Nat.le_total a.docId b.docId with hd | hd
    · exact Or.inl (Or.inr ⟨h, hd⟩)
    · exact Or.inr (Or.inr ⟨h.symm, hd⟩)
  · exact Or.inl (Or.inl h)⟩

instance : IsTrans SearchResult resRel := ⟨by
  intro a b c hab hbc
  unfold resRel at *
  rcases hab with h1 | ⟨h1, h1d⟩
  · rcases hbc with h2 | ⟨h2, _⟩
    · exact Or.inl (h2.trans h1)
    · exact Or.inl (h2 ▸ h1)
  · rcases hbc with h2 | ⟨h2, h2d⟩
    · exact Or.inl (h1 ▸ h2)
    · exact Or.inr ⟨h1.trans h2, h1d.trans h2d⟩⟩

/-- The candidate-generation and exact-scoring stages of `search`, for an
embedded query token sequence `qts`: pool the query tokens, fan out one ANN
query per pooled token, keep the top proxy-ranked candidate documents, and
score each of them with the exact MaxSim aggregate, attaching stored
metadata. -/
def searchScored (cfg : PipelineConfig) (qts : List Vec) (filter : Option String)
    (nAnnTokens : Nat) (nMaxsimCandidates : Nat) (s : StoreState) :
    List SearchResult :=
  (selectCandidates
      ((queryPool cfg.queryPoolDistance qts).map
        (fun qv => ann_query qv nAnnTokens filter s.docs)).flatten
      nMaxsimCandidates).filterMap
    (fun id => (s.docs.find? (fun d => d.docId = id)).map
      (fun d => SearchResult.mk id
        (maxSim (queryPool cfg.queryPoolDistance qts) d.tokens) d.metadata))

/-- Modelled from the spec: `search(query, k, filter_condition, n_ann_tokens,
n_maxsim_candidates)` — embed the query (EmbeddingError surfaces, an empty
token sequence is InvalidQuery), run the candidate and exact-scoring stages,
sort descending by MaxSim score with ties broken by document identifier, and
truncate to `k`. -/
def search (embedQ : String → Except String (List Vec)) (cfg : PipelineConfig)
    (query : String) (k : Nat) (filter : Option String)
    (nAnnTokens : Nat) (nMaxsimCandidates : Nat) (s : StoreState) :
    Except Err (List SearchResult) :=
  if s.schemaReady = false then .error .notInitialized
  else
    match embedQ query with
    | .error e => .error (.embeddingError e)
    | .ok [] => .error .invalidQuery
    | .ok (q :: qs) =>
        .ok ((List.insertionSort resRel
          (searchScored cfg (q :: qs) filter nAnnTokens nMaxsimCandidates s)).take k)

/-- A concrete embedding adapter for witness runs: one query/document token. -/
def exEmbed : String → Except String (List Vec) := fun _ => .ok [[(1 : ℚ), 0]]

/-- A concrete embedding adapter returning an empty token sequence. -/
def exEmbedEmpty : String → Except String (List Vec) := fun _ => .ok []

/-- A concrete embedding adapter that fails. -/
def exEmbedFail : String → Except String (List Vec) := fun _ => .error "model down"

/-- A concrete pipeline configuration with pooling disabled. -/
def exCfg : PipelineConfig := ⟨none, 0, 5⟩

/-- Education-category metadata for the witness corpus. -/
def exEdu : Meta := [("category", "education")]

/-- Technical-category metadata for the witness corpus. -/
def exTech : Meta := [("category", "technical")]

/-- A concrete initialised two-document store for witness runs. -/
def exStore : StoreState :=
  ⟨true, [⟨0, [[1, 0]], exEdu, "python doc"⟩,
          ⟨1, [[0, 1]], exTech, "db doc"⟩], 2⟩

/-- The `$contains` filter payload used by the witness runs. -/
def exFilter : String := "\"category\":\"education\""

/-- `addToClusters` grows the cluster list by at most one. -/
theorem addToClusters_length_le (d : ℚ) (cs : List (List Vec)) (v : Vec) :
    (addToClusters d cs v).length ≤ cs.length + 1 := by
  induction cs with
  | nil => simp [addToClusters]
  | cons c rest ih =>
      simp only [addToClusters]
      split
      · simp
      · simpa using Nat.succ_le_succ ih

/-- `addToClusters` never returns an empty cluster list. -/
theorem addToClusters_ne_nil (d : ℚ) (cs : List (List Vec)) (v : Vec) :
    addToClusters d cs v ≠ [] := by
  cases cs with
  | nil => simp [addToClusters]
  | cons c rest =>
      simp only [addToClusters]
      split <;> simp

/-- Folding `addToClusters` over the tokens produces at most one cluster per token. -/
theorem foldl_addToClusters_length_le (d : ℚ) (ts : List Vec) (cs : List (List Vec)) :
    (ts.foldl (addToClusters d) cs).length ≤ cs.length + ts.length := by
  induction ts generalizing cs with
  | nil => simp
  | cons t rest ih =>
      simp only [List.foldl_cons, List.length_cons]
      calc (rest.foldl (addToClusters d) (addToClusters d cs t)).length
          ≤ (addToClusters d cs t).length + rest.length := ih _
        _ ≤ (cs.length + 1) + rest.length :=
            Nat.add_le_add_right (addToClusters_length_le d cs t) _
        _ = cs.length + (rest.length + 1) := by omega

/-- Once the cluster list is nonempty, folding keeps it nonempty. -/
theorem foldl_addToClusters_ne_nil (d : ℚ) (ts : List Vec) (cs : List (List Vec))
    (h : cs ≠ []) : ts.foldl (addToClusters d) cs ≠ [] := by
  induction ts generalizing cs with
  | nil => simpa
  | cons t rest ih =>
      simp only [List.foldl_cons]
      exact ih _ (addToClusters_ne_nil d cs t)

/-- `poolChunks` with factor ≥ 2 never lengthens the sequence. -/
theorem poolChunks_length_le (f : Nat) (ts : List Vec) :
    (poolChunks f ts).length ≤ ts.length := by
  induction ts using poolChunks.induct f with
  | case1 => simp [poolChunks]
  | case2 t rest ih =>
      rw [poolChunks]
      simp only [List.length_cons]
      have hd : (rest.drop (f - 1)).length ≤ rest.length := by
        simp [List.length_drop]
      omega

/-- `poolChunks` of a nonempty sequence is nonempty. -/
theorem poolChunks_ne_nil (f : Nat) (ts : List Vec) (h : ts ≠ []) :
    poolChunks f ts ≠ [] := by
  cases ts with
  | nil => exact absurd rfl h
  | cons t rest => rw [poolChunks]; simp

/-- C6 helper: the greedy query clusters of a nonempty token list are nonempty. -/
theorem queryClusters_ne_nil (d : ℚ) (ts : List Vec) (h : ts ≠ []) :
    ts.foldl (addToClusters d) [] ≠ [] := by
  cases ts with
  | nil => exact absurd rfl h
  | cons t rest =>
      simp only [List.foldl_cons]
      exact foldl_addToClusters_ne_nil d rest _ (addToClusters_ne_nil d [] t)

/-- Characterisation of a successful `index_document`: the store must be
initialised and the embedding must return a nonempty token list; the new row is
pushed with the fresh identifier and the counter advances. -/
theorem index_document_ok_iff (embed : String → Except String (List Vec))
    (cfg : PipelineConfig) (c : String) (m : Meta) (s : StoreState)
    (id : Nat) (s' : StoreState) :
    index_document embed cfg c m s = .ok (id, s') ↔
      s.schemaReady = true ∧ ∃ t ts, embed c = .ok (t :: ts) ∧ id = s.nextId ∧
        s' = { s with
                docs := ⟨s.nextId, docPool cfg.docPoolFactor (t :: ts), m, c⟩ :: s.docs,
                nextId := s.nextId + 1 } := by
  unfold index_document
  constructor
  · intro h
    split at h
    · simp at h
    · rename_i hready
      refine ⟨by simpa using hready, ?_⟩
      cases hemb : embed c with
      | error e => rw [hemb] at h; simp at h
      | ok ts =>
          rw [hemb] at h
          cases ts with
          | nil => simp at h
          | cons t rest =>
              simp only [Except.ok.injEq, Prod.mk.injEq] at h
              exact ⟨t, rest, rfl, h.1.symm, h.2.symm⟩
  · rintro ⟨hready, t, ts, hemb, hid, hs'⟩
    rw [if_neg (by simp [hready]), hemb, hid, hs']

/-- **C6.** For every non-empty input sequence of `N` token vectors of consistent
dimensionality, pooling (document-side with any factor, and query-side with any
distance threshold) returns a sequence of `M` vectors with `1 ≤ M ≤ N`: never
zero tokens from a non-empty input, and never more tokens than the input. -/
theorem pooling_output_count_bounds (dim : Nat) (f : Option Nat) (d : ℚ)
    (ts : List Vec) (hne : ts ≠ []) (hdim : ∀ v ∈ ts, v.length = dim) :
    (1 ≤ (docPool f ts).length ∧ (docPool f ts).length ≤ ts.length) ∧
    (1 ≤ (queryPool d ts).length ∧ (queryPool d ts).length ≤ ts.length) := by
  constructor
  · cases f with
    | none =>
        simp only [docPool]
        exact ⟨List.length_pos.mpr hne, le_refl _⟩
    | some k =>
        simp only [docPool]
        split
        · exact ⟨List.length_pos.mpr hne, le_refl _⟩
        · exact ⟨List.length_pos.mpr (poolChunks_ne_nil k ts hne),
            poolChunks_length_le k ts⟩
  · by_cases hd : d = 0
    · simp only [queryPool, if_pos hd]
      exact ⟨List.length_pos.mpr hne, le_refl _⟩
    · simp only [queryPool, if_neg hd, List.length_map]
      refine ⟨List.length_pos.mpr (queryClusters_ne_nil d ts hne), ?_⟩
      simpa using foldl_addToClusters_length_le d ts []

/-- **C6 witness.** The bounds hold at a concrete nonempty three-token input. -/
theorem pooling_output_count_bounds_witness :
    (([[1], [1], [1]] : List Vec) ≠ [] ∧ ∀ v ∈ ([[1], [1], [1]] : List Vec), v.length = 1) ∧
    ((1 ≤ (docPool (some 2) [[1], [1], [1]]).length ∧
        (docPool (some 2) [[1], [1], [1]]).length ≤ ([[1], [1], [1]] : List Vec).length) ∧
      (1 ≤ (queryPool (1/2) [[1], [1], [1]]).length ∧
        (queryPool (1/2) [[1], [1], [1]]).length ≤ ([[1], [1], [1]] : List Vec).length)) :=
  ⟨⟨by decide, by decide⟩,
    pooling_output_count_bounds 1 (some 2) (1/2) [[1], [1], [1]] (by decide) (by decide)⟩

/-- **C7.** Pooling with a disabled control parameter is the identity transform:
with `doc_pool_factor` unset, document-side pooling returns the input token
sequence unchanged, and with `query_pool_distance = 0`, query-side pooling does
likewise, in the same order. -/
theorem pooling_disabled_identity (ts : List Vec) :
    docPool none ts = ts ∧ queryPool 0 ts = ts :=
  ⟨rfl, by simp [queryPool]⟩

/-- **C8.** Calling `initialize()` twice in succession leaves the backing
storage state identical to calling it once: the first call creates the schema
if absent, and a repeated call is a no-op. -/
theorem initStore_idempotent (s : StoreState) :
    initStore (initStore s) = initStore s := by
  unfold initStore
  cases h : s.schemaReady <;> simp [h]

/-- **C3.** Index-then-fetch round-trip: whenever `index_document(content,
metadata)` returns a document identifier, `get_document` on that identifier
returns exactly the submitted content and metadata. -/
theorem index_then_get_roundtrip (embed : String → Except String (List Vec))
    (cfg : PipelineConfig) (c : String) (m : Meta) (s : StoreState)
    (id : Nat) (s' : StoreState)
    (h : index_document embed cfg c m s = .ok (id, s')) :
    get_document s' id = .ok (c, m) := by
  rcases (index_document_ok_iff embed cfg c m s id s').mp h with
    ⟨hready, t, ts, hemb, hid, hs'⟩
  subst hid hs'
  unfold get_document
  rw [List.find?_cons_of_pos _ (by simp)]

/-- **C3 witness.** A concrete index-then-fetch round-trip. -/
theorem index_then_get_roundtrip_witness :
    index_document (fun _ => .ok [[1]]) ⟨none, 0, 5⟩ "doc one" [("topic", "db")]
        ⟨true, [], 0⟩ = .ok (0, ⟨true, [⟨0, [[1]], [("topic", "db")], "doc one"⟩], 1⟩) ∧
      get_document ⟨true, [⟨0, [[1]], [("topic", "db")], "doc one"⟩], 1⟩ 0 =
        .ok ("doc one", [("topic", "db")]) :=
  ⟨rfl,
    index_then_get_roundtrip (fun _ => .ok [[1]]) ⟨none, 0, 5⟩ "doc one"
      [("topic", "db")] ⟨true, [], 0⟩ 0
      ⟨true, [⟨0, [[1]], [("topic", "db")], "doc one"⟩], 1⟩ rfl⟩

/-- Indexing a document never flips the schema flag. -/
theorem index_document_schemaReady (embed : String → Except String (List Vec))
    (cfg : PipelineConfig) (c : String) (m : Meta) (s : StoreState)
    (id : Nat) (s' : StoreState) (h : index_document embed cfg c m s = .ok (id, s')) :
    s'.schemaReady = s.schemaReady := by
  rcases (index_document_ok_iff embed cfg c m s id s').mp h with ⟨_, t, ts, _, _, hs'⟩
  rw [hs']

/-- Indexing preserves the freshness invariant. -/
theorem index_document_wf (embed : String → Except String (List Vec))
    (cfg : PipelineConfig) (c : String) (m : Meta) (s : StoreState)
    (id : Nat) (s' : StoreState) (h : index_document embed cfg c m s = .ok (id, s'))
    (hwf : Wf s) : Wf s' := by
  rcases (index_document_ok_iff embed cfg c m s id s').mp h with ⟨_, t, ts, _, _, hs'⟩
  subst hs'
  intro d hd
  rcases List.mem_cons.mp hd with hhead | htail
  · subst hhead; exact Nat.lt_succ_self _
  · exact Nat.lt_succ_of_lt (hwf d htail)

/-- Indexing a new document does not disturb the lookup of any already stored
row: the fresh identifier differs from every stored one. -/
theorem index_document_find_preserved (embed : String → Except String (List Vec))
    (cfg : PipelineConfig) (c : String) (m : Meta) (s : StoreState)
    (id' : Nat) (s' : StoreState) (h : index_document embed cfg c m s = .ok (id', s'))
    (hwf : Wf s) (i : Nat) (d0 : Document)
    (hfind : s.docs.find? (fun d => d.docId = i) = some d0) :
    s'.docs.find? (fun d => d.docId = i) = some d0 := by
  rcases (index_document_ok_iff embed cfg c m s id' s').mp h with ⟨_, t, ts, _, _, hs'⟩
  subst hs'
  have hmem : d0 ∈ s.docs := List.mem_of_find?_eq_some hfind
  have hd0 : d0.docId = i := by
    have := List.find?_some hfind
    simpa using this
  have hlt : i < s.nextId := hd0 ▸ hwf d0 hmem
  rw [List.find?_cons_of_neg _ (by simp; omega)]
  exact hfind

/-- The freshly indexed row is found under its returned identifier. -/
theorem index_document_find_new (embed : String → Except String (List Vec))
    (cfg : PipelineConfig) (c : String) (m : Meta) (s : StoreState)
    (id : Nat) (s' : StoreState) (h : index_document embed cfg c m s = .ok (id, s')) :
    ∃ d, s'.docs.find? (fun d => d.docId = id) = some d ∧
      d.docId = id ∧ d.content = c ∧ d.metadata = m := by
  rcases (index_document_ok_iff embed cfg c m s id s').mp h with ⟨_, t, ts, _, hid, hs'⟩
  subst hid hs'
  exact ⟨_, by rw [List.find?_cons_of_pos _ (by simp)], rfl, rfl, rfl⟩

/-- When the store is initialised, a failing embedding call surfaces as
`EmbeddingError` from `index_document`. -/
theorem index_document_embed_error (embed : String → Except String (List Vec))
    (cfg : PipelineConfig) (c : String) (m : Meta) (s : StoreState)
    (msg : String) (hready : s.schemaReady = true) (hemb : embed c = .error msg) :
    index_document embed cfg c m s = .error (.embeddingError msg) := by
  unfold index_document
  rw [if_neg (by simp [hready]), hemb]

/-- Bulk execution never flips the schema flag. -/
theorem bulkExec_schemaReady (embed : String → Except String (List Vec))
    (cfg : PipelineConfig) (items : List (String × Meta)) (order : List Nat)
    (s : StoreState) :
    (bulkExec embed cfg items order s).2.schemaReady = s.schemaReady := by
  induction order generalizing s with
  | nil => rfl
  | cons j rest ih =>
      rw [bulkExec]
      cases hitem : items[j]? with
      | none => exact ih s
      | some cm =>
          cases hidx : index_document embed cfg cm.1 cm.2 s with
          | ok p =>
              obtain ⟨id, s1⟩ := p
              simp only [hidx]
              exact (ih s1).trans
                (index_document_schemaReady embed cfg cm.1 cm.2 s id s1 hidx)
          | error e =>
              simp only [hidx]
              exact ih s

/-- Bulk execution preserves the freshness invariant and never disturbs the
lookup of a row already stored before it ran. -/
theorem bulkExec_wf_preserve (embed : String → Except String (List Vec))
    (cfg : PipelineConfig) (items : List (String × Meta)) (order : List Nat)
    (s : StoreState) (hwf : Wf s) :
    Wf (bulkExec embed cfg items order s).2 ∧
      ∀ i d0, s.docs.find? (fun d => d.docId = i) = some d0 →
        (bulkExec embed cfg items order s).2.docs.find? (fun d => d.docId = i) =
          some d0 := by
  induction order generalizing s with
  | nil => exact ⟨hwf, fun i d0 h => h⟩
  | cons j rest ih =>
      rw [bulkExec]
      cases hitem : items[j]? with
      | none => exact ih s hwf
      | some cm =>
          cases hidx : index_document embed cfg cm.1 cm.2 s with
          | ok p =>
              obtain ⟨id, s1⟩ := p
              simp only [hidx]
              have hwf1 : Wf s1 := index_document_wf embed cfg cm.1 cm.2 s id s1 hidx hwf
              refine ⟨(ih s1 hwf1).1, fun i d0 h => ?_⟩
              exact (ih s1 hwf1).2 i d0
                (index_document_find_preserved embed cfg cm.1 cm.2 s id s1 hidx hwf i d0 h)
          | error e =>
              simp only [hidx]
              exact ih s hwf

/-- A recorded slot outcome is a member of the outcome list. -/
theorem slotFind_mem {α : Type} (as : List (Nat × α)) (j : Nat) (r : α)
    (h : slotFind j as = some r) : (j, r) ∈ as := by
  induction as with
  | nil => simp [slotFind] at h
  | cons kv rest ih =>
      obtain ⟨k, v⟩ := kv
      rw [slotFind] at h
      split at h
      · rename_i hk
        subst hk
        simp only [Option.some.injEq] at h
        subst h
        exact List.mem_cons_self _ _
      · exact List.mem_cons_of_mem _ (ih h)

/-- Every successful outcome recorded by bulk execution identifies, in the final
store, a row holding exactly the content and metadata of the input item at that
position. -/
theorem bulkExec_ok_mem (embed : String → Except String (List Vec))
    (cfg : PipelineConfig) (items : List (String × Meta)) (order : List Nat)
    (s : StoreState) (hwf : Wf s) (j : Nat) (id : Nat)
    (hmem : (j, Except.ok id) ∈ (bulkExec embed cfg items order s).1) :
    ∃ cm, items[j]? = some cm ∧
      ∃ d, (bulkExec embed cfg items order s).2.docs.find?
          (fun d => d.docId = id) = some d ∧
        d.docId = id ∧ d.content = cm.1 ∧ d.metadata = cm.2 := by
  induction order generalizing s with
  | nil => simp [bulkExec] at hmem
  | cons j' rest ih =>
      rw [bulkExec] at hmem ⊢
      cases hitem : items[j']? with
      | none =>
          rw [hitem] at hmem
          exact ih s hwf hmem
      | some cm =>
          rw [hitem] at hmem
          cases hidx : index_document embed cfg cm.1 cm.2 s with
          | ok p =>
              obtain ⟨id0, s1⟩ := p
              simp only [hidx] at hmem ⊢
              have hwf1 : Wf s1 := index_document_wf embed cfg cm.1 cm.2 s id0 s1 hidx hwf
              rcases List.mem_cons.mp hmem with hhead | htail
              · rw [Prod.mk.injEq] at hhead
                obtain ⟨hj, hid⟩ := hhead
                simp only [Except.ok.injEq] at hid
                subst hj
                subst hid
                refine ⟨cm, hitem, ?_⟩
                obtain ⟨d, hfind1, hdid, hcont, hmeta⟩ :=
                  index_document_find_new embed cfg cm.1 cm.2 s id s1 hidx
                exact ⟨d, (bulkExec_wf_preserve embed cfg items rest s1 hwf1).2 id d hfind1,
                  hdid, hcont, hmeta⟩
              · exact ih s1 hwf1 htail
          | error e =>
              simp only [hidx] at hmem ⊢
              rcases List.mem_cons.mp hmem with hhead | htail
              · exact absurd (congrArg Prod.snd hhead) (by simp)
              · exact ih s hwf htail

/-- Every position appearing in the completion order records exactly one
outcome, whose success or failure depends only on that item's own embedding:
a nonempty embedding yields a success, a failing embedding yields that item's
`EmbeddingError` — independently of every other item. -/
theorem bulkExec_slotFind_shape (embed : String → Except String (List Vec))
    (cfg : PipelineConfig) (items : List (String × Meta)) (j : Nat)
    (cm : String × Meta) (order : List Nat) :
    ∀ s : StoreState, s.schemaReady = true → j ∈ order → items[j]? = some cm →
      ∃ r, slotFind j (bulkExec embed cfg items order s).1 = some r ∧
        ((∃ t ts, embed cm.1 = .ok (t :: ts)) → ∃ id, r = .ok id) ∧
        (∀ msg, embed cm.1 = .error msg → r = .error (.embeddingError msg)) := by
  induction order with
  | nil => intro s _ hj _; simp at hj
  | cons k rest ih =>
      intro s hready hj hitem
      rw [bulkExec]
      by_cases hk : k = j
      · subst hk
        rw [hitem]
        cases hidx : index_document embed cfg cm.1 cm.2 s with
        | ok p =>
            obtain ⟨id, s1⟩ := p
            simp only [hidx]
            refine ⟨.ok id, by simp [slotFind], fun _ => ⟨id, rfl⟩, fun msg hmsg => ?_⟩
            rcases (index_document_ok_iff embed cfg cm.1 cm.2 s id s1).mp hidx with
              ⟨_, t, ts, hemb, _, _⟩
            rw [hemb] at hmsg
            cases hmsg
        | error e =>
            simp only [hidx]
            refine ⟨.error e, by simp [slotFind], ?_, ?_⟩
            · rintro ⟨t, ts, hemb⟩
              have hok : index_document embed cfg cm.1 cm.2 s =
                  .ok (s.nextId,
                    { s with
                        docs := ⟨s.nextId, docPool cfg.docPoolFactor (t :: ts),
                          cm.2, cm.1⟩ :: s.docs,
                        nextId := s.nextId + 1 }) :=
                (index_document_ok_iff embed cfg cm.1 cm.2 s s.nextId _).mpr
                  ⟨hready, t, ts, hemb, rfl, rfl⟩
              rw [hok] at hidx
              cases hidx
            · intro msg hmsg
              have herr := index_document_embed_error embed cfg cm.1 cm.2 s msg hready hmsg
              rw [herr] at hidx
              cases hidx
              rfl
      · have hjr : j ∈ rest := by
          rcases List.mem_cons.mp hj with h | h
          · exact absurd h.symm hk
          · exact h
        cases hitemk : items[k]? with
        | none => exact ih s hready hjr hitem
        | some cmk =>
            cases hidx : index_document embed cfg cmk.1 cmk.2 s with
            | ok p =>
                obtain ⟨id, s1⟩ := p
                simp only [hidx]
                have hready1 : s1.schemaReady = true :=
                  (index_document_schemaReady embed cfg cmk.1 cmk.2 s id s1 hidx).trans hready
                obtain ⟨r, hfind, hshape⟩ := ih s1 hready1 hjr hitem
                refine ⟨r, ?_, hshape⟩
                rw [slotFind, if_neg hk]
                exact hfind
            | error e =>
                simp only [hidx]
                obtain ⟨r, hfind, hshape⟩ := ih s hready hjr hitem
                refine ⟨r, ?_, hshape⟩
                rw [slotFind, if_neg hk]
                exact hfind

/-- **C4.** `bulk_index_documents` with `len(contents) == len(metadata_list) == n`
returns a list of `n` per-position outcomes, and the identifier reported at
position `i` is the identifier of the document indexed from `contents[i]` with
`metadata_list[i]` — for every completion order of the concurrent per-item
operations. -/
theorem bulk_index_preserves_positions (embed : String → Except String (List Vec))
    (cfg : PipelineConfig) (contents : List String) (metadataList : List Meta)
    (mc : Nat) (order : List Nat) (s : StoreState)
    (results : List (Except Err Nat)) (s' : StoreState) (hwf : Wf s)
    (hrun : bulk_index_documents embed cfg contents metadataList mc order s =
      .ok (results, s')) :
    results.length = contents.length ∧
    ∀ (i : Nat) (c : String) (m : Meta) (id : Nat),
      contents[i]? = some c → metadataList[i]? = some m →
      results[i]? = some (Except.ok id) →
      ∃ d, s'.docs.find? (fun d => d.docId = id) = some d ∧
        d.docId = id ∧ d.content = c ∧ d.metadata = m := by
  unfold bulk_index_documents at hrun
  split at hrun
  · simp only [Except.ok.injEq, Prod.mk.injEq] at hrun
    obtain ⟨hres, hs'⟩ := hrun
    subst hres
    subst hs'
    refine ⟨by simp, fun i c m id hc hm hr => ?_⟩
    have hin : i < contents.length := by
      rcases List.getElem?_eq_some.mp hc with ⟨h, _⟩
      exact h
    rw [List.getElem?_map, List.getElem?_range hin] at hr
    simp only [Option.map_some'] at hr
    cases hslot : slotFind i (bulkExec embed cfg (contents.zip metadataList) order s).1 with
    | none => rw [hslot] at hr; simp at hr
    | some r =>
        rw [hslot] at hr
        simp only [Option.getD_some, Option.some.injEq] at hr
        subst hr
        have hmem := slotFind_mem _ i _ hslot
        obtain ⟨cm, hitem, d, hfind, hdid, hcont, hmeta⟩ :=
          bulkExec_ok_mem embed cfg (contents.zip metadataList) order s hwf i id hmem
        have hzip : (contents.zip metadataList)[i]? = some (c, m) := by
          rw [List.getElem?_zip_eq_some]
          exact ⟨hc, hm⟩
        rw [hzip] at hitem
        cases hitem
        exact ⟨d, hfind, hdid, hcont, hmeta⟩
  · exact absurd hrun (by simp)

/-- **C4 witness.** A concrete bulk call with reversed completion order still
reports, at each position, the identifier of that position's own document. -/
theorem bulk_index_preserves_positions_witness :
    Wf ⟨true, [], 0⟩ ∧
    bulk_index_documents (fun c => if c = "x" then .ok [[1]] else .ok [[2]])
        ⟨none, 0, 5⟩ ["x", "y"] [[("k", "x")], [("k", "y")]] 2 [1, 0] ⟨true, [], 0⟩ =
      .ok ([.ok 1, .ok 0],
        ⟨true, [⟨1, [[1]], [("k", "x")], "x"⟩, ⟨0, [[2]], [("k", "y")], "y"⟩], 2⟩) ∧
    (([Except.ok 1, Except.ok 0] : List (Except Err Nat)).length =
        (["x", "y"] : List String).length ∧
      ∀ (i : Nat) (c : String) (m : Meta) (id : Nat),
        (["x", "y"] : List String)[i]? = some c →
        ([[("k", "x")], [("k", "y")]] : List Meta)[i]? = some m →
        ([Except.ok 1, Except.ok 0] : List (Except Err Nat))[i]? = some (Except.ok id) →
        ∃ d, (StoreState.mk true
            [⟨1, [[1]], [("k", "x")], "x"⟩, ⟨0, [[2]], [("k", "y")], "y"⟩]
            2).docs.find? (fun d => d.docId = id) = some d ∧
          d.docId = id ∧ d.content = c ∧ d.metadata = m) :=
  ⟨fun d hd => absurd hd (List.not_mem_nil d), rfl,
    bulk_index_preserves_positions (fun c => if c = "x" then .ok [[1]] else .ok [[2]])
      ⟨none, 0, 5⟩ ["x", "y"] [[("k", "x")], [("k", "y")]] 2 [1, 0] ⟨true, [], 0⟩
      [.ok 1, .ok 0]
      ⟨true, [⟨1, [[1]], [("k", "x")], "x"⟩, ⟨0, [[2]], [("k", "y")], "y"⟩], 2⟩
      (fun d hd => absurd hd (List.not_mem_nil d)) rfl⟩

/-- **C5.** Partial-failure semantics of `bulk_index_documents`: if the item at
position `i` fails to embed, that failure is reported at position `i` as its own
`EmbeddingError`, and every sibling whose embedding succeeds still reports a
successful identifier — one item's failure never aborts the others. -/
theorem bulk_index_partial_failure (embed : String → Except String (List Vec))
    (cfg : PipelineConfig) (contents : List String) (metadataList : List Meta)
    (mc : Nat) (order : List Nat) (s : StoreState)
    (results : List (Except Err Nat)) (s' : StoreState)
    (hready : s.schemaReady = true)
    (horder : ∀ j, j < contents.length → j ∈ order)
    (hrun : bulk_index_documents embed cfg contents metadataList mc order s =
      .ok (results, s'))
    (i : Nat) (c : String) (m : Meta) (msg : String)
    (hc : contents[i]? = some c) (hm : metadataList[i]? = some m)
    (hfail : embed c = .error msg) :
    results[i]? = some (Except.error (Err.embeddingError msg)) ∧
    ∀ (j : Nat) (cj : String) (mj : Meta),
      contents[j]? = some cj → metadataList[j]? = some mj →
      (∃ t ts, embed cj = .ok (t :: ts)) →
      ∃ id, results[j]? = some (Except.ok id) := by
  unfold bulk_index_documents at hrun
  split at hrun
  · simp only [Except.ok.injEq, Prod.mk.injEq] at hrun
    obtain ⟨hres, _⟩ := hrun
    subst hres
    constructor
    · have hin : i < contents.length := by
        rcases List.getElem?_eq_some.mp hc with ⟨h, _⟩
        exact h
      have hzip : (contents.zip metadataList)[i]? = some (c, m) := by
        rw [List.getElem?_zip_eq_some]
        exact ⟨hc, hm⟩
      obtain ⟨r, hslot, _, herr⟩ :=
        bulkExec_slotFind_shape embed cfg (contents.zip metadataList) i (c, m)
          order s hready (horder i hin) hzip
      rw [List.getElem?_map, List.getElem?_range hin]
      simp only [Option.map_some']
      rw [hslot, herr msg hfail]
      rfl
    · intro j cj mj hcj hmj hemb
      have hjn : j < contents.length := by
        rcases List.getElem?_eq_some.mp hcj with ⟨h, _⟩
        exact h
      have hzipj : (contents.zip metadataList)[j]? = some (cj, mj) := by
        rw [List.getElem?_zip_eq_some]
        exact ⟨hcj, hmj⟩
      obtain ⟨r, hslot, hok, _⟩ :=
        bulkExec_slotFind_shape embed cfg (contents.zip metadataList) j (cj, mj)
          order s hready (horder j hjn) hzipj
      obtain ⟨id, hid⟩ := hok hemb
      refine ⟨id, ?_⟩
      rw [List.getElem?_map, List.getElem?_range hjn]
      simp only [Option.map_some']
      rw [hslot, hid]
      rfl
  · exact absurd hrun (by simp)

/-- **C5 witness.** One failing item among two: the failure is reported at its
own position and the sibling still succeeds. -/
theorem bulk_index_partial_failure_witness :
    ((StoreState.mk true [] 0).schemaReady = true ∧
      (∀ j, j < (["good", "bad"] : List String).length → j ∈ ([1, 0] : List Nat)) ∧
      bulk_index_documents
          (fun c => if c = "bad" then .error "boom" else .ok [[1]])
          ⟨none, 0, 5⟩ ["good", "bad"] [[("k", "g")], [("k", "b")]] 2 [1, 0]
          ⟨true, [], 0⟩ =
        .ok ([.ok 0, .error (.embeddingError "boom")],
          ⟨true, [⟨0, [[1]], [("k", "g")], "good"⟩], 1⟩) ∧
      (["good", "bad"] : List String)[1]? = some "bad" ∧
      ([[("k", "g")], [("k", "b")]] : List Meta)[1]? = some [("k", "b")] ∧
      (fun c => if c = "bad" then (.error "boom" : Except String (List Vec))
        else .ok [[1]]) "bad" = .error "boom") ∧
    (([Except.ok 0, Except.error (Err.embeddingError "boom")] :
        List (Except Err Nat))[1]? = some (.error (.embeddingError "boom")) ∧
      ∀ (j : Nat) (cj : String) (mj : Meta),
        (["good", "bad"] : List String)[j]? = some cj →
        ([[("k", "g")], [("k", "b")]] : List Meta)[j]? = some mj →
        (∃ t ts, (fun c => if c = "bad" then (.error "boom" : Except String (List Vec))
          else .ok [[1]]) cj = .ok (t :: ts)) →
        ∃ id, ([Except.ok 0, Except.error (Err.embeddingError "boom")] :
          List (Except Err Nat))[j]? = some (.ok id)) :=
  ⟨⟨rfl, by decide, rfl, rfl, rfl, rfl⟩,
    bulk_index_partial_failure
      (fun c => if c = "bad" then .error "boom" else .ok [[1]])
      ⟨none, 0, 5⟩ ["good", "bad"] [[("k", "g")], [("k", "b")]] 2 [1, 0]
      ⟨true, [], 0⟩ [.ok 0, .error (.embeddingError "boom")]
      ⟨true, [⟨0, [[1]], [("k", "g")], "good"⟩], 1⟩
      rfl (by decide) rfl 1 "bad" [("k", "b")] "boom" rfl rfl rfl⟩

/-- Elimination form of a successful `search`: the store was initialised, the
query embedded to a nonempty token sequence, and the result list is the sorted,
truncated output of the scoring stage. -/
theorem search_ok_elim (embedQ : String → Except String (List Vec))
    (cfg : PipelineConfig) (query : String) (k : Nat) (filter : Option String)
    (nA nM : Nat) (s : StoreState) (results : List SearchResult)
    (hrun : search embedQ cfg query k filter nA nM s = .ok results) :
    s.schemaReady = true ∧ ∃ q qs, embedQ query = .ok (q :: qs) ∧
      results =
        (List.insertionSort resRel (searchScored cfg (q :: qs) filter nA nM s)).take k := by
  unfold search at hrun
  split at hrun
  · exact absurd hrun (by simp)
  · rename_i hready
    refine ⟨by simpa using hready, ?_⟩
    cases hemb : embedQ query with
    | error e => rw [hemb] at hrun; exact absurd hrun (by simp)
    | ok ts =>
        rw [hemb] at hrun
        cases ts with
        | nil => exact absurd hrun (by simp)
        | cons q qs =>
            simp only [Except.ok.injEq] at hrun
            exact ⟨q, qs, rfl, hrun.symm⟩

/-- Every member of the scoring stage's output carries the exact MaxSim score
of the stored document it names, that document's metadata, and a candidate
identifier. -/
theorem searchScored_mem (cfg : PipelineConfig) (qts : List Vec)
    (filter : Option String) (nA nM : Nat) (s : StoreState) (r : SearchResult)
    (hr : r ∈ searchScored cfg qts filter nA nM s) :
    ∃ d, s.docs.find? (fun x => x.docId = r.docId) = some d ∧
      r.score = maxSim (queryPool cfg.queryPoolDistance qts) d.tokens ∧
      r.metadata = d.metadata ∧
      r.docId ∈ selectCandidates
        ((queryPool cfg.queryPoolDistance qts).map
          (fun qv => ann_query qv nA filter s.docs)).flatten nM := by
  unfold searchScored at hr
  rw [List.mem_filterMap] at hr
  obtain ⟨id, hid, hmap⟩ := hr
  cases hfind : s.docs.find? (fun d => d.docId = id) with
  | none => rw [hfind] at hmap; cases hmap
  | some d =>
      rw [hfind] at hmap
      simp only [Option.map_some', Option.some.injEq] at hmap
      subst hmap
      exact ⟨d, hfind, rfl, rfl, hid⟩

/-- **C1.** For every search call and every returned result, the score equals
the MaxSim aggregate: the sum, over each (pooled) query token vector, of the
maximum dot-product similarity between that query token vector and any of the
stored (pooled) token vectors of the document the result names. -/
theorem search_scores_are_maxsim (embedQ : String → Except String (List Vec))
    (cfg : PipelineConfig) (query : String) (k : Nat) (filter : Option String)
    (nA nM : Nat) (s : StoreState) (results : List SearchResult)
    (hrun : search embedQ cfg query k filter nA nM s = .ok results) :
    ∀ r ∈ results, ∃ qts d, embedQ query = .ok qts ∧
      s.docs.find? (fun x => x.docId = r.docId) = some d ∧
      r.score = maxSim (queryPool cfg.queryPoolDistance qts) d.tokens := by
  intro r hr
  obtain ⟨hready, q, qs, hemb, hres⟩ :=
    search_ok_elim embedQ cfg query k filter nA nM s results hrun
  subst hres
  have h1 : r ∈ searchScored cfg (q :: qs) filter nA nM s :=
    (List.mem_insertionSort resRel).mp (List.mem_of_mem_take hr)
  obtain ⟨d, hfind, hscore, _, _⟩ :=
    searchScored_mem cfg (q :: qs) filter nA nM s r h1
  exact ⟨q :: qs, d, hemb, hfind, hscore⟩

/-- **C2.** Every successful `search(query, k, ...)` returns at most `k`
results, sorted in descending order of score with ties broken by document
identifier. -/
theorem search_length_le_k_and_sorted (embedQ : String → Except String (List Vec))
    (cfg : PipelineConfig) (query : String) (k : Nat) (filter : Option String)
    (nA nM : Nat) (s : StoreState) (results : List SearchResult)
    (hrun : search embedQ cfg query k filter nA nM s = .ok results) :
    results.length ≤ k ∧ results.Pairwise resRel := by
  obtain ⟨hready, q, qs, hemb, hres⟩ :=
    search_ok_elim embedQ cfg query k filter nA nM s results hrun
  subst hres
  refine ⟨List.length_take_le k _, ?_⟩
  exact List.Pairwise.sublist (List.take_sublist k _)
    (List.sorted_insertionSort resRel (searchScored cfg (q :: qs) filter nA nM s))

/-- **C9.** On an initialised store: a query embedding to an empty token
sequence fails with InvalidQuery (no results are returned), and a failure of
the query-embedding call surfaces as EmbeddingError, untouched by any retry. -/
theorem search_error_conditions (embedQ : String → Except String (List Vec))
    (cfg : PipelineConfig) (query : String) (k : Nat) (filter : Option String)
    (nA nM : Nat) (s : StoreState) (hready : s.schemaReady = true) :
    (embedQ query = .ok [] →
      search embedQ cfg query k filter nA nM s = .error .invalidQuery) ∧
    (∀ msg, embedQ query = .error msg →
      search embedQ cfg query k filter nA nM s = .error (.embeddingError msg)) := by
  constructor
  · intro hemb
    unfold search
    rw [if_neg (by simp [hready]), hemb]
  · intro msg hemb
    unfold search
    rw [if_neg (by simp [hready]), hemb]

/-- Every ANN hit on the full token table comes from a document that passed the
metadata filter, and is tagged with that document's identifier. -/
theorem allHits_docId (qv : Vec) (filter : Option String) (docs : List Document)
    (h : AnnHit) (hmem : h ∈ allHits qv filter docs) :
    ∃ d ∈ docs, passesFilter filter d = true ∧ h.docId = d.docId := by
  unfold allHits at hmem
  rw [List.mem_flatMap] at hmem
  obtain ⟨d, hd, hmem2⟩ := hmem
  rw [List.mem_filter] at hd
  rw [List.mem_map] at hmem2
  obtain ⟨ti, _, hh⟩ := hmem2
  exact ⟨d, hd.1, hd.2, by rw [← hh]⟩

/-- `ann_query` only returns hits drawn from the filtered token table. -/
theorem ann_query_subset (qv : Vec) (topN : Nat) (filter : Option String)
    (docs : List Document) (h : AnnHit) (hmem : h ∈ ann_query qv topN filter docs) :
    h ∈ allHits qv filter docs :=
  (List.mem_insertionSort hitRel).mp (List.mem_of_mem_take hmem)

/-- Every selected candidate identifier is owned by some ANN hit. -/
theorem selectCandidates_mem (hits : List AnnHit) (nCand : Nat) (id : Nat)
    (hid : id ∈ selectCandidates hits nCand) : ∃ h ∈ hits, h.docId = id := by
  unfold selectCandidates at hid
  have hmem := (List.mem_insertionSort (candRel hits)).mp (List.mem_of_mem_take hid)
  rw [candidateIds, List.mem_dedup, List.mem_map] at hmem
  exact hmem

/-- **C10.** For every search call whose filter condition carries the
`$contains` substring `str`, every returned result names a stored document
whose serialised metadata contains `str` as a substring — documents failing the
predicate are excluded at candidate generation and never reach the results. -/
theorem search_filter_respected (embedQ : String → Except String (List Vec))
    (cfg : PipelineConfig) (query : String) (k : Nat) (str : String)
    (nA nM : Nat) (s : StoreState) (results : List SearchResult)
    (hnodup : (s.docs.map Document.docId).Nodup)
    (hrun : search embedQ cfg query k (some str) nA nM s = .ok results) :
    ∀ r ∈ results, ∃ d ∈ s.docs, d.docId = r.docId ∧ r.metadata = d.metadata ∧
      strContains (metaSerialize d.metadata) str = true := by
  intro r hr
  obtain ⟨hready, q, qs, hemb, hres⟩ :=
    search_ok_elim embedQ cfg query k (some str) nA nM s results hrun
  subst hres
  have h1 : r ∈ searchScored cfg (q :: qs) (some str) nA nM s :=
    (List.mem_insertionSort resRel).mp (List.mem_of_mem_take hr)
  obtain ⟨d, hfind, _, hmeta, hcand⟩ :=
    searchScored_mem cfg (q :: qs) (some str) nA nM s r h1
  have hd_mem : d ∈ s.docs := List.mem_of_find?_eq_some hfind
  have hd_id : d.docId = r.docId := by simpa using List.find?_some hfind
  obtain ⟨hhit, hhit_mem, hhit_id⟩ := selectCandidates_mem _ _ _ hcand
  rw [List.mem_flatten] at hhit_mem
  obtain ⟨l, hl, hhl⟩ := hhit_mem
  rw [List.mem_map] at hl
  obtain ⟨qv, _, hlq⟩ := hl
  subst hlq
  obtain ⟨d2, hd2, hpass, hid2⟩ :=
    allHits_docId qv (some str) s.docs hhit (ann_query_subset qv nA (some str) s.docs hhit hhl)
  have heq : d = d2 :=
    List.inj_on_of_nodup_map hnodup hd_mem hd2 (by rw [hd_id, ← hid2, hhit_id])
  simp only [passesFilter] at hpass
  exact ⟨d, hd_mem, hd_id, hmeta, heq ▸ hpass⟩

/-- **C1 witness.** A concrete two-document search whose returned scores are
exactly the MaxSim aggregates of the stored documents. -/
theorem search_scores_are_maxsim_witness :
    search exEmbed exCfg "q" 2 none 10 10 exStore =
      .ok [⟨0, 1, exEdu⟩, ⟨1, 0, exTech⟩] ∧
    ∀ r ∈ [SearchResult.mk 0 1 exEdu, SearchResult.mk 1 0 exTech],
      ∃ qts d, exEmbed "q" = .ok qts ∧
        exStore.docs.find? (fun x => x.docId = r.docId) = some d ∧
        r.score = maxSim (queryPool exCfg.queryPoolDistance qts) d.tokens :=
  ⟨by simp [search, searchScored, selectCandidates, candidateIds, ann_query,
      allHits, proxyScore, maxSim, qMax, dot, queryPool, passesFilter,
      exEmbed, exCfg, exStore, exEdu, exTech, hitRel, candRel, resRel,
      List.insertionSort, List.orderedInsert, List.dedup, List.pwFilter],
   search_scores_are_maxsim exEmbed exCfg "q" 2 none 10 10 exStore
    [⟨0, 1, exEdu⟩, ⟨1, 0, exTech⟩]
    (by simp [search, searchScored, selectCandidates, candidateIds, ann_query,
      allHits, proxyScore, maxSim, qMax, dot, queryPool, passesFilter,
      exEmbed, exCfg, exStore, exEdu, exTech, hitRel, candRel, resRel,
      List.insertionSort, List.orderedInsert, List.dedup, List.pwFilter])⟩

/-- **C2 witness.** A concrete `search(k = 1)` over a two-document corpus:
one result, trivially sorted. -/
theorem search_length_le_k_and_sorted_witness :
    search exEmbed exCfg "q" 1 none 10 10 exStore = .ok [⟨0, 1, exEdu⟩] ∧
    ([SearchResult.mk 0 1 exEdu].length ≤ 1 ∧
      [SearchResult.mk 0 1 exEdu].Pairwise resRel) :=
  ⟨by simp [search, searchScored, selectCandidates, candidateIds, ann_query,
      allHits, proxyScore, maxSim, qMax, dot, queryPool, passesFilter,
      exEmbed, exCfg, exStore, exEdu, exTech, hitRel, candRel, resRel,
      List.insertionSort, List.orderedInsert, List.dedup, List.pwFilter],
   search_length_le_k_and_sorted exEmbed exCfg "q" 1 none 10 10 exStore
    [⟨0, 1, exEdu⟩]
    (by simp [search, searchScored, selectCandidates, candidateIds, ann_query,
      allHits, proxyScore, maxSim, qMax, dot, queryPool, passesFilter,
      exEmbed, exCfg, exStore, exEdu, exTech, hitRel, candRel, resRel,
      List.insertionSort, List.orderedInsert, List.dedup, List.pwFilter])⟩

/-- **C9 witness.** On the concrete initialised store, an empty query token
sequence yields InvalidQuery and a failing embedder yields EmbeddingError. -/
theorem search_error_conditions_witness :
    exStore.schemaReady = true ∧
    search exEmbedEmpty exCfg "q" 3 none 10 10 exStore = .error .invalidQuery ∧
    search exEmbedFail exCfg "q" 3 none 10 10 exStore =
      .error (.embeddingError "model down") :=
  ⟨rfl,
    (search_error_conditions exEmbedEmpty exCfg "q" 3 none 10 10 exStore rfl).1 rfl,
    (search_error_conditions exEmbedFail exCfg "q" 3 none 10 10 exStore rfl).2
      "model down" rfl⟩

/-- **C10 witness.** A concrete filtered search: only the education-category
document is returned, and its serialised metadata contains the filter payload. -/
theorem search_filter_respected_witness :
    (exStore.docs.map Document.docId).Nodup ∧
    search exEmbed exCfg "q" 2 (some exFilter) 10 10 exStore = .ok [⟨0, 1, exEdu⟩] ∧
    ∀ r ∈ [SearchResult.mk 0 1 exEdu], ∃ d ∈ exStore.docs, d.docId = r.docId ∧
      r.metadata = d.metadata ∧ strContains (metaSerialize d.metadata) exFilter = true :=
  ⟨by decide,
   by simp [search, searchScored, selectCandidates, candidateIds, ann_query,
      allHits, proxyScore, maxSim, qMax, dot, queryPool, passesFilter,
      exEmbed, exCfg, exStore, exEdu, exTech, hitRel, candRel, resRel, exFilter,
      metaSerialize, strContains, String.intercalate,
      List.insertionSort, List.orderedInsert, List.dedup, List.pwFilter],
   search_filter_respected exEmbed exCfg "q" 2 exFilter 10 10 exStore
      [⟨0, 1, exEdu⟩] (by decide)
      (by simp [search, searchScored, selectCandidates, candidateIds, ann_query,
      allHits, proxyScore, maxSim, qMax, dot, queryPool, passesFilter,
      exEmbed, exCfg, exStore, exEdu, exTech, hitRel, candRel, resRel, exFilter,
      metaSerialize, strContains, String.intercalate,
      List.insertionSort, List.orderedInsert, List.dedup, List.pwFilter])⟩

end LateInteraction
